import Mathlib

/-
  Verification development for the kvl embedded key/value store
  (src/index.ts, class KVL backed by a single SQLite table `kvl`).

  The store state is modelled as a list of rows plus the auto-increment
  counter.  SQL statements are modelled row by row:
  INSERT OR IGNORE, UPDATE ... WHERE key = ?, DELETE ... WHERE id = ?,
  DELETE ... WHERE updateTime <= ?, SELECT ... ORDER BY id ASC/DESC LIMIT 1,
  and the LIKE operator with its '%'/'_' wildcards and ASCII case folding.
  Timestamps (Date.now()) are explicit Int parameters.
-/

set_option autoImplicit false

namespace KVL

/-- Strings are modelled as lists of characters. -/
abbrev Str := List Char

/-- SQLite LIKE pattern matching. A literal character matches up to ASCII
case folding (SQLite folds only A-Z by default, exactly what Char.toLower
does), the wildcard rendered as a percent sign matches any sequence of
characters (some suffix continues the match), and an underscore matches
exactly one character. -/
def likeMatch : Str → Str → Bool
  | [], s => s.isEmpty
  | p :: ps, s =>
    if p = '%' then s.tails.any (fun t => likeMatch ps t)
    else
      match s with
      | [] => false
      | c :: t =>
        if p = '_' then likeMatch ps t
        else (p.toLower == c.toLower) && likeMatch ps t

/-- A row of the `kvl` table: id INTEGER PRIMARY KEY AUTOINCREMENT,
key TEXT UNIQUE, value TEXT, labels TEXT (nullable, NULL at insert),
createTime INTEGER, updateTime INTEGER. -/
structure Record where
  id : Nat
  key : Str
  value : Str
  labels : Option Str
  createTime : Int
  updateTime : Int
deriving DecidableEq, Repr

/-- The database state: the rows plus the next auto-increment id.
`expireTimeMs` is the constructor argument (undefined modelled as none). -/
structure Store where
  recs : List Record
  nextId : Nat
  expireTimeMs : Option Int
deriving DecidableEq, Repr

/-- A fresh store: empty table, SQLite row ids start at 1.  The KVL
constructor also runs expire() once, which does nothing on an empty table. -/
def mkKVL (expireTimeMs : Option Int) : Store :=
  ⟨[], 1, expireTimeMs⟩

/-- INSERT OR IGNORE INTO kvl (createTime, updateTime, key, value)
VALUES (time, time, key, value): a no-op when a row with this key exists,
otherwise appends a row with the next id and NULL labels. -/
def insertIfAbsent (k v : Str) (t : Int) (s : Store) : Store :=
  if s.recs.any (fun r => r.key == k) then s
  else { s with recs := s.recs ++ [⟨s.nextId, k, v, none, t, t⟩],
                nextId := s.nextId + 1 }

/-- UPDATE kvl SET value = ?, updateTime = ? WHERE key = ?. -/
def updateByKey (k v : Str) (t : Int) (s : Store) : Store :=
  { s with recs := s.recs.map (fun r =>
      if r.key == k then { r with value := v, updateTime := t } else r) }

/-- KVL.set: insert-or-ignore followed unconditionally by update, both with
the same Date.now() value. -/
def set (k v : Str) (t : Int) (s : Store) : Store :=
  updateByKey k v t (insertIfAbsent k v t s)

/-- KVL.get: SELECT value FROM kvl WHERE key = ?. -/
def get (k : Str) (s : Store) : Option Str :=
  (s.recs.find? (fun r => r.key == k)).map (fun r => r.value)

/-- The composed key of a list member: name, a colon, then the random token
(crypto.randomUUID() in the source, supplied here as an explicit argument). -/
def nameKey (name tok : Str) : Str := name ++ ':' :: tok

/-- The WHERE clause shared by pop, shift, all and page:
key LIKE name || ':%'. -/
def matchesName (name : Str) (r : Record) : Bool :=
  likeMatch (name ++ [':', '%']) r.key

/-- KVL.push: generates the composed key and delegates to set, returning
the key. -/
def push (name tok v : Str) (t : Int) (s : Store) : Str × Store :=
  let key := nameKey name tok
  (key, set key v t s)

/-- SELECT ... ORDER BY id ASC LIMIT 1 over the rows satisfying p: the
matching row of least id. -/
def selectMinId (p : Record → Bool) : List Record → Option Record
  | [] => none
  | r :: rs =>
    let rest := selectMinId p rs
    if p r then
      match rest with
      | none => some r
      | some m => if r.id ≤ m.id then some r else some m
    else rest

/-- SELECT ... ORDER BY id DESC LIMIT 1 over the rows satisfying p: the
matching row of greatest id. -/
def selectMaxId (p : Record → Bool) : List Record → Option Record
  | [] => none
  | r :: rs =>
    let rest := selectMaxId p rs
    if p r then
      match rest with
      | none => some r
      | some m => if m.id ≤ r.id then some r else some m
    else rest

/-- DELETE FROM kvl WHERE id = ?. -/
def deleteById (i : Nat) (s : Store) : Store :=
  { s with recs := s.recs.filter (fun r => r.id != i) }

/-- KVL.pop: select the row of largest id among keys LIKE name || ':%',
delete it by id (the source guards the delete by the JS truthiness of
item?.id, hence the id ≠ 0 test), return its value. -/
def pop (name : Str) (s : Store) : Option Str × Store :=
  match selectMaxId (matchesName name) s.recs with
  | none => (none, s)
  | some item => (some item.value, if item.id ≠ 0 then deleteById item.id s else s)

/-- KVL.shift: the same as pop but selecting the row of smallest id. -/
def shift (name : Str) (s : Store) : Option Str × Store :=
  match selectMinId (matchesName name) s.recs with
  | none => (none, s)
  | some item => (some item.value, if item.id ≠ 0 then deleteById item.id s else s)

/-- The row shape returned by KVL.all: SELECT createTime, updateTime, key,
value. -/
structure ListItem where
  createTime : Int
  updateTime : Int
  key : Str
  value : Str
deriving DecidableEq, Repr

/-- Insert a row into a list kept in createTime-descending order. -/
def insertByCreateDesc (r : Record) : List Record → List Record
  | [] => [r]
  | x :: xs =>
    if x.createTime < r.createTime then r :: x :: xs
    else x :: insertByCreateDesc r xs

/-- ORDER BY createTime DESC, as an insertion sort. -/
def sortByCreateDesc (l : List Record) : List Record :=
  l.foldr insertByCreateDesc []

/-- KVL.all: SELECT createTime, updateTime, key, value FROM kvl WHERE key
LIKE name || ':%' ORDER BY createTime DESC. -/
def all (name : Str) (s : Store) : List ListItem :=
  (sortByCreateDesc (s.recs.filter (matchesName name))).map
    (fun r => ⟨r.createTime, r.updateTime, r.key, r.value⟩)

/-- KVL.tags read overload: SELECT labels FROM kvl WHERE key = ?; throws
(the NotFoundError of the spec, an Error saying the item does not exist)
when no row matches.  The error payload is modelled as Unit: the store
defines a single logical error kind. -/
def tagsRead (k : Str) (s : Store) : Except Unit (Option Str) :=
  match s.recs.find? (fun r => r.key == k) with
  | none => Except.error ()
  | some r => Except.ok r.labels

/-- KVL.tags write overload: UPDATE kvl SET labels = ?, updateTime = ?
WHERE key = ?; throws the same NotFoundError when the update changed fewer
than one row. -/
def tagsWrite (k ts : Str) (t : Int) (s : Store) : Except Unit Store :=
  let recs' := s.recs.map (fun r =>
    if r.key == k then { r with labels := some ts, updateTime := t } else r)
  let changes := (s.recs.filter (fun r => r.key == k)).length
  if changes < 1 then Except.error ()
  else Except.ok { s with recs := recs' }

/-- The tagsOperator parameter of KVL.page. -/
inductive TagsOp
  | AND
  | OR
deriving DecidableEq, Repr

/-- One tag predicate of the page filter: labels LIKE '%' || tag || '%'.
A row with NULL labels never matches (SQL three-valued logic). -/
def labelLike (tag : Str) (r : Record) : Bool :=
  match r.labels with
  | none => false
  | some l => likeMatch ('%' :: tag ++ ['%']) l

/-- The tag part of the page WHERE clause: 1 = 1 when tags is empty,
otherwise the per-tag predicates joined by tagsOperator (default AND). -/
def tagsFilter (tags : List Str) (op : Option TagsOp) (r : Record) : Bool :=
  if tags.isEmpty then true
  else
    match op.getD TagsOp.AND with
    | TagsOp.AND => tags.all (fun tag => labelLike tag r)
    | TagsOp.OR => tags.any (fun tag => labelLike tag r)

/-- SELECT COUNT(1) as total FROM kvl WHERE key LIKE name || ':%' AND
(tag filter). -/
def pageTotal (s : Store) (name : Str) (tags : List Str) (op : Option TagsOp) : Nat :=
  (s.recs.filter (fun r => matchesName name r && tagsFilter tags op r)).length

/-- The page-count computation of KVL.page: lastOffset is total - 1
clamped at 0, pages is Math.floor(lastOffset / pageSize) + 1. -/
def pagesCount (total pageSize : Nat) : Nat :=
  (if total > 0 then total - 1 else 0) / pageSize + 1

/-- The pageNum clamp of KVL.page: if (pageNum > pages) pageNum = pages.
Requested page numbers are arbitrary JS numbers, hence Int. -/
def effPageNum (pageNum : Int) (total pageSize : Nat) : Int :=
  if pageNum > (pagesCount total pageSize : Int) then (pagesCount total pageSize : Int)
  else pageNum

/-- The object shape the spec requires page to return. -/
structure PageResult where
  items : List Record
  total : Nat
  pages : Nat
  pageNum : Int
deriving DecidableEq, Repr

/-- KVL.page: runs the COUNT query, computes pages and the clamped pageNum,
and then falls off the end of the function without fetching items or
returning anything — the TS function returns undefined, hence none. -/
def page (s : Store) (name : Str) (pageNum : Int) (pageSize : Nat)
    (tags : List Str) (op : Option TagsOp) : Option PageResult :=
  let total := pageTotal s name tags op
  let _pn := effPageNum pageNum total pageSize
  none

/-- KVL.expire: a no-op when expireTimeMs is JS-falsy (undefined or 0),
otherwise DELETE FROM kvl WHERE updateTime <= Date.now() - expireTimeMs.
The VACUUM that follows a non-empty delete does not change any row. -/
def expire (now : Int) (s : Store) : Store :=
  match s.expireTimeMs with
  | none => s
  | some e =>
    if e = 0 then s
    else { s with recs := s.recs.filter (fun r => !decide (r.updateTime ≤ now - e)) }

/-- The SQLite-maintained invariants of the kvl table: row ids strictly
increase in insertion order, every id is positive and below the
auto-increment counter, and keys are unique. -/
@[reducible] def StoreInv (s : Store) : Prop :=
  s.recs.Pairwise (fun a b => a.id < b.id) ∧
  (∀ r ∈ s.recs, 0 < r.id ∧ r.id < s.nextId) ∧
  (s.recs.map (fun r => r.key)).Nodup ∧
  0 < s.nextId

/-- One push instruction: the random token, the value, the Date.now()
timestamp of the call. -/
structure PushItem where
  tok : Str
  val : Str
  time : Int
deriving DecidableEq, Repr

/-- Push a sequence of values to the same list, in order. -/
def pushAll (name : Str) : List PushItem → Store → Store
  | [], s => s
  | it :: rest, s => pushAll name rest (push name it.tok it.val it.time s).2

/-- n consecutive shift calls, collecting the returned values. -/
def shiftSeq (name : Str) : Nat → Store → List (Option Str) × Store
  | 0, s => ([], s)
  | n + 1, s =>
    let step := shift name s
    let rest := shiftSeq name n step.2
    (step.1 :: rest.1, rest.2)

/-- n consecutive pop calls, collecting the returned values. -/
def popSeq (name : Str) : Nat → Store → List (Option Str) × Store
  | 0, s => ([], s)
  | n + 1, s =>
    let step := pop name s
    let rest := popSeq name n step.2
    (step.1 :: rest.1, rest.2)

/-- The rows that pushing items to a list appends to the table, ids
counting up from the given auto-increment value. -/
def mkRecs (name : Str) : List PushItem → Nat → List Record
  | [], _ => []
  | it :: rest, i =>
    ⟨i, nameKey name it.tok, it.val, none, it.time, it.time⟩ :: mkRecs name rest (i + 1)

end KVL

namespace KVL

/-- C4: the spec claims page returns an object with items, total, pages and
pageNum.  The source computes the count, the page count and the clamped page
number and then falls off the end of the method: it returns undefined for
every input, fetching no items.  This theorem evaluates the modelled method
and shows no page object is ever produced. -/
theorem c4_page_returns_no_object (s : Store) (name : Str) (pageNum : Int)
    (pageSize : Nat) (tags : List Str) (op : Option TagsOp) :
    page s name pageNum pageSize tags op = none := rfl

/-- C5 counterexample: on an empty list with page size 10 the computed page
count is 1, yet a requested pageNum of 0 is left at 0, outside the interval
from 1 to pages the claim promises. -/
theorem c5_counterexample :
    pagesCount (pageTotal (mkKVL none) ['q'] [] none) 10 = 1 ∧
    effPageNum 0 (pageTotal (mkKVL none) ['q'] [] none) 10 = 0 ∧
    ¬ (1 ≤ effPageNum 0 (pageTotal (mkKVL none) ['q'] [] none) 10) := by
  decide

/-- C5 (amended): for a list with T matching members and page size P > 0 the
computed page count equals the ceiling of T / P when T > 0 and equals 1 when
T = 0, and a requested pageNum above the page count is clamped down to it,
while a requested pageNum not above the page count (in particular one below
1) is returned unchanged. -/
theorem c5_pages_formula_and_clamp (s : Store) (name : Str) (tags : List Str)
    (op : Option TagsOp) (pageNum : Int) (P : Nat) (hP : 0 < P) :
    (pageTotal s name tags op = 0 → pagesCount (pageTotal s name tags op) P = 1) ∧
    (0 < pageTotal s name tags op →
      pagesCount (pageTotal s name tags op) P = (pageTotal s name tags op + P - 1) / P) ∧
    (((pagesCount (pageTotal s name tags op) P : Int) < pageNum →
      effPageNum pageNum (pageTotal s name tags op) P =
        (pagesCount (pageTotal s name tags op) P : Int)) ∧
     (pageNum ≤ (pagesCount (pageTotal s name tags op) P : Int) →
      effPageNum pageNum (pageTotal s name tags op) P = pageNum)) := by
  refine ⟨?_, ?_, ?_, ?_⟩
  · intro h
    simp [pagesCount, h]
  · intro h
    have h1 : pageTotal s name tags op + P - 1 = (pageTotal s name tags op - 1) + P := by
      omega
    simp only [pagesCount, if_pos h, h1, Nat.add_div_right _ hP]
  · intro h
    simp only [effPageNum, if_pos h]
  · intro h
    rw [effPageNum, if_neg (by omega)]

/-- C5 witness: a store holding one pushed record, page size 2, requested
page number 5. -/
theorem c5_pages_formula_and_clamp_witness :
    0 < 2 ∧
    ((pageTotal (push ['q'] ['t'] ['v'] 0 (mkKVL none)).2 ['q'] [] none = 0 →
      pagesCount (pageTotal (push ['q'] ['t'] ['v'] 0 (mkKVL none)).2 ['q'] [] none) 2 = 1) ∧
     (0 < pageTotal (push ['q'] ['t'] ['v'] 0 (mkKVL none)).2 ['q'] [] none →
      pagesCount (pageTotal (push ['q'] ['t'] ['v'] 0 (mkKVL none)).2 ['q'] [] none) 2 =
        (pageTotal (push ['q'] ['t'] ['v'] 0 (mkKVL none)).2 ['q'] [] none + 2 - 1) / 2) ∧
     (((pagesCount (pageTotal (push ['q'] ['t'] ['v'] 0 (mkKVL none)).2 ['q'] [] none) 2 : Int) < 5 →
       effPageNum 5 (pageTotal (push ['q'] ['t'] ['v'] 0 (mkKVL none)).2 ['q'] [] none) 2 =
         (pagesCount (pageTotal (push ['q'] ['t'] ['v'] 0 (mkKVL none)).2 ['q'] [] none) 2 : Int)) ∧
      (5 ≤ (pagesCount (pageTotal (push ['q'] ['t'] ['v'] 0 (mkKVL none)).2 ['q'] [] none) 2 : Int) →
       effPageNum 5 (pageTotal (push ['q'] ['t'] ['v'] 0 (mkKVL none)).2 ['q'] [] none) 2 = 5))) :=
  ⟨by decide,
   c5_pages_formula_and_clamp (push ['q'] ['t'] ['v'] 0 (mkKVL none)).2 ['q'] [] none 5 2
     (by decide)⟩

/-- C7 counterexample: a store constructed with expireTimeMs equal to 0 holds
a record whose updateTime 5 is not above now minus E (10 - 0 = 10), yet
expire() leaves the store untouched: the JS falsy guard treats a configured
0 like an absent configuration. -/
theorem c7_counterexample :
    expire 10 (Store.mk [Record.mk 1 ['k'] ['v'] none 5 5] 2 (some 0)) =
      Store.mk [Record.mk 1 ['k'] ['v'] none 5 5] 2 (some 0) ∧
    (Record.mk 1 ['k'] ['v'] none 5 5).updateTime ≤ 10 - 0 ∧
    Record.mk 1 ['k'] ['v'] none 5 5 ∈
      (expire 10 (Store.mk [Record.mk 1 ['k'] ['v'] none 5 5] 2 (some 0))).recs := by
  decide

/-- C7 (amended): with a configured expireTimeMs = E different from 0, after
expire() no remaining record has updateTime at or below now - E and every
record with a more recent updateTime is retained; a store constructed without
expireTimeMs (and likewise one constructed with the JS-falsy value 0) sees
expire() as a no-op. -/
theorem c7_expire_behaviour (s : Store) (now e : Int)
    (hconf : s.expireTimeMs = some e) (he : e ≠ 0) :
    (∀ r ∈ (expire now s).recs, ¬ (r.updateTime ≤ now - e)) ∧
    (∀ r ∈ s.recs, ¬ (r.updateTime ≤ now - e) → r ∈ (expire now s).recs) ∧
    (∀ s2 : Store, s2.expireTimeMs = none → expire now s2 = s2) := by
  refine ⟨?_, ?_, ?_⟩
  · intro r hr
    simp only [expire, hconf, if_neg he] at hr
    simp only [List.mem_filter, Bool.not_eq_true', decide_eq_false_iff_not] at hr
    exact hr.2
  · intro r hr hkeep
    simp only [expire, hconf, if_neg he]
    simp only [List.mem_filter, Bool.not_eq_true', decide_eq_false_iff_not]
    exact ⟨hr, hkeep⟩
  · intro s2 h2
    simp [expire, h2]

/-- C7 witness: expireTimeMs 3 and now 10: the record stamped 5 is deleted,
the record stamped 9 survives. -/
theorem c7_expire_behaviour_witness :
    (Store.mk [Record.mk 1 ['k'] ['v'] none 5 5, Record.mk 2 ['m'] ['w'] none 9 9]
        3 (some 3)).expireTimeMs = some 3 ∧
    (3 : Int) ≠ 0 ∧
    ((∀ r ∈ (expire 10 (Store.mk
        [Record.mk 1 ['k'] ['v'] none 5 5, Record.mk 2 ['m'] ['w'] none 9 9]
        3 (some 3))).recs, ¬ (r.updateTime ≤ 10 - 3)) ∧
     (∀ r ∈ (Store.mk
        [Record.mk 1 ['k'] ['v'] none 5 5, Record.mk 2 ['m'] ['w'] none 9 9]
        3 (some 3)).recs, ¬ (r.updateTime ≤ 10 - 3) → r ∈ (expire 10 (Store.mk
        [Record.mk 1 ['k'] ['v'] none 5 5, Record.mk 2 ['m'] ['w'] none 9 9]
        3 (some 3))).recs) ∧
     (∀ s2 : Store, s2.expireTimeMs = none → expire 10 s2 = s2)) :=
  ⟨rfl, by decide,
   c7_expire_behaviour
     (Store.mk [Record.mk 1 ['k'] ['v'] none 5 5, Record.mk 2 ['m'] ['w'] none 9 9]
        3 (some 3)) 10 3 rfl (by decide)⟩

end KVL

namespace KVL

lemma eq_of_mem_id {l : List Record} (hp : l.Pairwise (fun a b => a.id < b.id))
    {x y : Record} (hx : x ∈ l) (hy : y ∈ l) (h : x.id = y.id) : x = y := by
  induction l with
  | nil => cases hx
  | cons a l ih =>
    rw [List.pairwise_cons] at hp
    cases hx with
    | head =>
      cases hy with
      | head => rfl
      | tail _ hy2 => exact absurd (hp.1 y hy2) (by omega)
    | tail _ hx2 =>
      cases hy with
      | head => exact absurd (hp.1 x hx2) (by omega)
      | tail _ hy2 => exact ih hp.2 hx2 hy2

lemma find?_key_map (l : List Record) (f : Record → Record) (k : Str)
    (hf : ∀ r, (f r).key = r.key) :
    (l.map f).find? (fun r => r.key == k) = (l.find? (fun r => r.key == k)).map f := by
  induction l with
  | nil => rfl
  | cons a l ih =>
    by_cases h : a.key = k
    · have hfa : ((f a).key == k) = true := by rw [hf a]; exact beq_iff_eq.2 h
      have ha : (a.key == k) = true := beq_iff_eq.2 h
      simp [List.find?, hfa, ha]
    · have hfa : ((f a).key == k) = false := by
        rw [hf a]; exact beq_eq_false_iff_ne.2 h
      have ha : (a.key == k) = false := beq_eq_false_iff_ne.2 h
      simp [List.find?, hfa, ha, ih]

lemma map_key_eq (l : List Record) (f : Record → Record)
    (hf : ∀ r, (f r).key = r.key) :
    (l.map f).map (fun r => r.key) = l.map (fun r => r.key) := by
  rw [List.map_map]
  exact List.map_congr_left (fun r _ => hf r)

lemma filter_key_nil (l : List Record) (k : Str)
    (h : k ∉ l.map (fun r => r.key)) :
    l.filter (fun r => r.key == k) = [] := by
  induction l with
  | nil => rfl
  | cons a l ih =>
    simp only [List.map_cons, List.mem_cons, not_or] at h
    rw [List.filter_cons, if_neg (by simp [beq_eq_false_iff_ne.2 (fun he => h.1 he.symm)])]
    exact ih h.2

lemma filter_key_length_one (l : List Record) (k : Str)
    (hnd : (l.map (fun r => r.key)).Nodup) (hk : k ∈ l.map (fun r => r.key)) :
    (l.filter (fun r => r.key == k)).length = 1 := by
  induction l with
  | nil => cases hk
  | cons a l ih =>
    rw [List.map_cons, List.nodup_cons] at hnd
    rcases List.mem_cons.1 hk with h | h
    · simp only [] at h
      subst h
      rw [List.filter_cons, if_pos (by simp)]
      have hnil : l.filter (fun r => r.key == a.key) = [] :=
        filter_key_nil l a.key hnd.1
      simp [hnil]
    · have hne : a.key ≠ k := by
        intro he; rw [he] at hnd; exact hnd.1 h
      rw [List.filter_cons, if_neg (by simp [beq_eq_false_iff_ne.2 hne])]
      exact ih hnd.2 h

lemma updateByKey_map_id_key (r : Record) (k v : Str) (t : Int) :
    ((if r.key == k then { r with value := v, updateTime := t } else r).key = r.key ∧
     (if r.key == k then { r with value := v, updateTime := t } else r).id = r.id ∧
     (if r.key == k then { r with value := v, updateTime := t } else r).labels = r.labels ∧
     (if r.key == k then { r with value := v, updateTime := t } else r).createTime
       = r.createTime) := by
  by_cases h : (r.key == k) = true
  · simp [h]
  · simp [h]

lemma set_recs (s : Store) (k v : Str) (t : Int) :
    (set k v t s).recs =
      (if s.recs.any (fun r => r.key == k) then s.recs
       else s.recs ++ [⟨s.nextId, k, v, none, t, t⟩]).map (fun r =>
         if r.key == k then { r with value := v, updateTime := t } else r) := by
  by_cases h : s.recs.any (fun r => r.key == k) = true
  · simp [set, insertIfAbsent, updateByKey, h]
  · rw [Bool.not_eq_true] at h
    simp [set, insertIfAbsent, updateByKey, h]

lemma set_nextId (s : Store) (k v : Str) (t : Int) :
    (set k v t s).nextId =
      if s.recs.any (fun r => r.key == k) then s.nextId else s.nextId + 1 := by
  by_cases h : s.recs.any (fun r => r.key == k) = true
  · simp [set, insertIfAbsent, updateByKey, h]
  · rw [Bool.not_eq_true] at h
    simp [set, insertIfAbsent, updateByKey, h]

lemma set_keys (s : Store) (k v : Str) (t : Int) :
    (set k v t s).recs.map (fun r => r.key) =
      if s.recs.any (fun r => r.key == k) then s.recs.map (fun r => r.key)
      else s.recs.map (fun r => r.key) ++ [k] := by
  rw [set_recs, map_key_eq _ _ (fun r => (updateByKey_map_id_key r k v t).1)]
  by_cases h : s.recs.any (fun r => r.key == k) = true
  · simp [h]
  · rw [Bool.not_eq_true] at h
    simp [h]

lemma set_key_mem (s : Store) (k v : Str) (t : Int) :
    k ∈ (set k v t s).recs.map (fun r => r.key) := by
  rw [set_keys]
  by_cases h : s.recs.any (fun r => r.key == k) = true
  · rw [if_pos h]
    obtain ⟨r, hr, hrk⟩ := List.any_eq_true.1 h
    have hk : r.key = k := by
      have : (r.key == k) = true := hrk
      exact beq_iff_eq.1 this
    exact List.mem_map.2 ⟨r, hr, hk⟩
  · rw [Bool.not_eq_true] at h
    simp [h]

lemma set_inv (s : Store) (k v : Str) (t : Int) (hinv : StoreInv s) :
    StoreInv (set k v t s) := by
  obtain ⟨hpair, hbound, hnd, hpos⟩ := hinv
  have hids : ∀ r : Record,
      (if r.key == k then { r with value := v, updateTime := t } else r).id = r.id :=
    fun r => (updateByKey_map_id_key r k v t).2.1
  by_cases h : s.recs.any (fun r => r.key == k) = true
  · refine ⟨?_, ?_, ?_, ?_⟩
    · rw [set_recs, if_pos h, List.pairwise_map]
      exact hpair.imp (by intro a b hab; rw [hids a, hids b]; exact hab)
    · intro r hr
      rw [set_recs, if_pos h] at hr
      obtain ⟨x, hx, rfl⟩ := List.mem_map.1 hr
      rw [hids x, set_nextId, if_pos h]
      exact hbound x hx
    · rw [set_keys, if_pos h]
      exact hnd
    · rw [set_nextId, if_pos h]
      exact hpos
  · rw [Bool.not_eq_true] at h
    refine ⟨?_, ?_, ?_, ?_⟩
    · rw [set_recs, if_neg (by simp [h]), List.pairwise_map, List.pairwise_append]
      refine ⟨hpair.imp ?_, by simp, ?_⟩
      · intro a b hab; rw [hids a, hids b]; exact hab
      · intro a ha b hb
        rw [List.mem_singleton] at hb
        subst hb
        rw [hids a, hids ⟨s.nextId, k, v, none, t, t⟩]
        exact (hbound a ha).2
    · intro r hr
      rw [set_recs, if_neg (by simp [h])] at hr
      obtain ⟨x, hx, rfl⟩ := List.mem_map.1 hr
      rw [hids x, set_nextId, if_neg (by simp [h])]
      rcases List.mem_append.1 hx with hx2 | hx2
      · have := hbound x hx2
        omega
      · rw [List.mem_singleton] at hx2
        subst hx2
        simp only []
        omega
    · rw [set_keys, if_neg (by simp [h]), List.nodup_append]
      refine ⟨hnd, List.nodup_singleton k, ?_⟩
      intro a ha hb
      rw [List.mem_singleton] at hb
      rw [hb] at ha
      obtain ⟨x, hx, hxk⟩ := List.mem_map.1 ha
      have h2 : ∀ x ∈ s.recs, ¬ ((fun r => r.key == k) x = true) := by
        rw [← List.any_eq_false]
        exact h
      exact h2 x hx (beq_iff_eq.2 hxk)
    · rw [set_nextId, if_neg (by simp [h])]
      omega

lemma set_value_updateTime (s : Store) (k v : Str) (t : Int) :
    ∀ r ∈ (set k v t s).recs, r.key = k → r.value = v ∧ r.updateTime = t := by
  intro r hr hkey
  rw [set_recs] at hr
  obtain ⟨x, _, rfl⟩ := List.mem_map.1 hr
  by_cases h : (x.key == k) = true
  · simp [h]
  · rw [if_neg (by simp [h])] at hkey ⊢
    exact absurd (beq_iff_eq.2 hkey) (by simp [h])

/-- C1: set gives upsert semantics: after set(k, v) at time t1 exactly one
record has key k, its value is v and its updateTime is the fresh t1; setting
the same value again at a later time t2 still leaves exactly one record with
key k, value v, and the later of the two update times. -/
theorem c1_set_upsert (s : Store) (k v : Str) (t1 t2 : Int)
    (hinv : StoreInv s) (hle : t1 ≤ t2) :
    (((set k v t1 s).recs.filter (fun r => r.key == k)).length = 1 ∧
     (∀ r ∈ (set k v t1 s).recs, r.key = k → r.value = v ∧ r.updateTime = t1)) ∧
    (((set k v t2 (set k v t1 s)).recs.filter (fun r => r.key == k)).length = 1 ∧
     (∀ r ∈ (set k v t2 (set k v t1 s)).recs, r.key = k →
        r.value = v ∧ r.updateTime = max t1 t2)) := by
  have h1 := set_inv s k v t1 hinv
  have h2 := set_inv (set k v t1 s) k v t2 h1
  refine ⟨⟨?_, set_value_updateTime s k v t1⟩, ⟨?_, ?_⟩⟩
  · exact filter_key_length_one _ k h1.2.2.1 (set_key_mem s k v t1)
  · exact filter_key_length_one _ k h2.2.2.1 (set_key_mem (set k v t1 s) k v t2)
  · intro r hr hkey
    rw [max_eq_right hle]
    exact set_value_updateTime (set k v t1 s) k v t2 r hr hkey

/-- C1 witness: an empty store, key k, value v, times 3 then 7. -/
theorem c1_set_upsert_witness :
    StoreInv (mkKVL none) ∧ (3 : Int) ≤ 7 ∧
    ((((set ['k'] ['v'] 3 (mkKVL none)).recs.filter (fun r => r.key == ['k'])).length = 1 ∧
      (∀ r ∈ (set ['k'] ['v'] 3 (mkKVL none)).recs, r.key = ['k'] →
         r.value = ['v'] ∧ r.updateTime = 3)) ∧
     (((set ['k'] ['v'] 7 (set ['k'] ['v'] 3 (mkKVL none))).recs.filter
         (fun r => r.key == ['k'])).length = 1 ∧
      (∀ r ∈ (set ['k'] ['v'] 7 (set ['k'] ['v'] 3 (mkKVL none))).recs, r.key = ['k'] →
         r.value = ['v'] ∧ r.updateTime = max 3 7))) :=
  ⟨by decide, by decide,
   c1_set_upsert (mkKVL none) ['k'] ['v'] 3 7 (by decide) (by decide)⟩

/-- C10: overwriting the value of an existing key leaves its labels exactly
as they were: the update statement touches only value and updateTime. -/
theorem c10_set_preserves_labels (s : Store) (k v : Str) (t : Int) (r : Record)
    (hfind : s.recs.find? (fun y => y.key == k) = some r) :
    ∃ r2, (set k v t s).recs.find? (fun y => y.key == k) = some r2 ∧
      r2.labels = r.labels ∧ r2.value = v ∧ r2.updateTime = t := by
  have hp := List.find?_some hfind
  have hmem : s.recs.any (fun y => y.key == k) = true := by
    refine List.any_eq_true.2 ⟨r, List.mem_of_find?_eq_some hfind, ?_⟩
    exact hp
  have hrecs : (set k v t s).recs = s.recs.map (fun y =>
      if y.key == k then { y with value := v, updateTime := t } else y) := by
    rw [set_recs, if_pos hmem]
  refine ⟨{ r with value := v, updateTime := t }, ?_, rfl, rfl, rfl⟩
  rw [hrecs, find?_key_map _ _ k (fun y => (updateByKey_map_id_key y k v t).1), hfind,
    Option.map_some']
  rw [if_pos hp]

/-- C10 witness: a store holding one labelled record for key k. -/
theorem c10_set_preserves_labels_witness :
    (Store.mk [Record.mk 1 ['k'] ['v'] (some ['L']) 0 0] 2 none).recs.find?
        (fun y => y.key == ['k']) = some (Record.mk 1 ['k'] ['v'] (some ['L']) 0 0) ∧
    (∃ r2, (set ['k'] ['w'] 5 (Store.mk [Record.mk 1 ['k'] ['v'] (some ['L']) 0 0] 2 none)).recs.find?
        (fun y => y.key == ['k']) = some r2 ∧
      r2.labels = (Record.mk 1 ['k'] ['v'] (some ['L']) 0 0).labels ∧
      r2.value = ['w'] ∧ r2.updateTime = 5) :=
  ⟨by decide,
   c10_set_preserves_labels (Store.mk [Record.mk 1 ['k'] ['v'] (some ['L']) 0 0] 2 none)
     ['k'] ['w'] 5 (Record.mk 1 ['k'] ['v'] (some ['L']) 0 0) (by decide)⟩

end KVL

namespace KVL

lemma tagsLabels_map_key (y : Record) (k x : Str) (t : Int) :
    ((if y.key == k then { y with labels := some x, updateTime := t } else y).key = y.key ∧
     (if y.key == k then { y with labels := some x, updateTime := t } else y).id = y.id ∧
     (if y.key == k then { y with labels := some x, updateTime := t } else y).createTime
       = y.createTime) := by
  by_cases h : (y.key == k) = true
  · simp [h]
  · simp [h]

lemma tagsWrite_ok (s : Store) (k x : Str) (t : Int) (r : Record)
    (hfind : s.recs.find? (fun y => y.key == k) = some r) :
    tagsWrite k x t s = Except.ok { s with recs := s.recs.map (fun y =>
      if y.key == k then { y with labels := some x, updateTime := t } else y) } := by
  have hp := List.find?_some hfind
  have hmem : r ∈ s.recs.filter (fun y => y.key == k) :=
    List.mem_filter.2 ⟨List.mem_of_find?_eq_some hfind, hp⟩
  have hlen : ¬ ((s.recs.filter (fun y => y.key == k)).length < 1) := by
    have h0 : s.recs.filter (fun y => y.key == k) ≠ [] := List.ne_nil_of_mem hmem
    have h1 : 0 < (s.recs.filter (fun y => y.key == k)).length := List.length_pos.2 h0
    omega
  simp only [tagsWrite]
  rw [if_neg hlen]

/-- C6: writing a tag string to an existing key succeeds, refreshes
updateTime, and a subsequent tag read returns exactly the written string;
on a key with no record both the tag read and the tag write fail with the
NotFoundError. -/
theorem c6_tags_roundtrip (s : Store) (k x : Str) (t : Int) :
    (∀ r, s.recs.find? (fun y => y.key == k) = some r →
      ∃ s2, tagsWrite k x t s = Except.ok s2 ∧
        tagsRead k s2 = Except.ok (some x) ∧
        (∃ r2, s2.recs.find? (fun y => y.key == k) = some r2 ∧
          r2.labels = some x ∧ r2.updateTime = t)) ∧
    (s.recs.find? (fun y => y.key == k) = none →
      tagsRead k s = Except.error () ∧ tagsWrite k x t s = Except.error ()) := by
  constructor
  · intro r hfind
    have hp := List.find?_some hfind
    have hfind2 : (s.recs.map (fun y =>
        if y.key == k then { y with labels := some x, updateTime := t } else y)).find?
        (fun y => y.key == k) = some { r with labels := some x, updateTime := t } := by
      rw [find?_key_map _ _ k (fun y => (tagsLabels_map_key y k x t).1), hfind,
        Option.map_some']
      rw [if_pos hp]
    refine ⟨_, tagsWrite_ok s k x t r hfind, ?_, ?_⟩
    · simp only [tagsRead, hfind2]
    · exact ⟨_, hfind2, rfl, rfl⟩
  · intro hnone
    constructor
    · simp [tagsRead, hnone]
    · have hnil : s.recs.filter (fun y => y.key == k) = [] := by
        rw [List.filter_eq_nil_iff]
        intro a ha
        have := List.find?_eq_none.1 hnone a ha
        simpa using this
      simp [tagsWrite, hnil]

/-- C6 witness: a store holding key k, writing tag x at time 1, and an empty
store for the not-found branch. -/
theorem c6_tags_roundtrip_witness :
    (∃ s2, tagsWrite ['k'] ['x'] 1 (set ['k'] ['v'] 0 (mkKVL none)) = Except.ok s2 ∧
      tagsRead ['k'] s2 = Except.ok (some ['x']) ∧
      (∃ r2, s2.recs.find? (fun y => y.key == ['k']) = some r2 ∧
        r2.labels = some ['x'] ∧ r2.updateTime = 1)) ∧
    (tagsRead ['k'] (mkKVL none) = Except.error () ∧
      tagsWrite ['k'] ['x'] 1 (mkKVL none) = Except.error ()) :=
  ⟨(c6_tags_roundtrip (set ['k'] ['v'] 0 (mkKVL none)) ['k'] ['x'] 1).1
      (Record.mk 1 ['k'] ['v'] none 0 0) (by decide),
   (c6_tags_roundtrip (mkKVL none) ['k'] ['x'] 1).2 (by decide)⟩

lemma map_preserves_createTime (l : List Record) (f : Record → Record)
    (hid : ∀ y, (f y).id = y.id) (hct : ∀ y, (f y).createTime = y.createTime)
    (hp : l.Pairwise (fun a b => a.id < b.id)) :
    ∀ r2 ∈ l.map f, ∀ r1 ∈ l, r2.id = r1.id → r2.createTime = r1.createTime := by
  intro r2 h2 r1 h1 heq
  obtain ⟨y, hy, rfl⟩ := List.mem_map.1 h2
  have hyid : y.id = r1.id := by rw [← hid y]; exact heq
  have hEq : y = r1 := eq_of_mem_id hp hy h1 hyid
  subst hEq
  exact hct y

/-- C9: a record's createTime is never modified: both set (on a fresh or an
existing key) and a tag write keep the createTime of every record whose id
survives, touching only value or labels and updateTime. -/
theorem c9_createTime_never_changes (s : Store) (k v x : Str) (t : Int)
    (hinv : StoreInv s) :
    (∀ r2 ∈ (set k v t s).recs, ∀ r1 ∈ s.recs, r2.id = r1.id →
       r2.createTime = r1.createTime) ∧
    (∀ s2, tagsWrite k x t s = Except.ok s2 →
       ∀ r2 ∈ s2.recs, ∀ r1 ∈ s.recs, r2.id = r1.id →
         r2.createTime = r1.createTime) := by
  obtain ⟨hpair, hbound, hnd, hpos⟩ := hinv
  constructor
  · intro r2 h2 r1 h1 heq
    rw [set_recs] at h2
    by_cases h : s.recs.any (fun r => r.key == k) = true
    · rw [if_pos h] at h2
      exact map_preserves_createTime s.recs _
        (fun y => (updateByKey_map_id_key y k v t).2.1)
        (fun y => (updateByKey_map_id_key y k v t).2.2.2) hpair r2 h2 r1 h1 heq
    · rw [Bool.not_eq_true] at h
      rw [if_neg (by simp [h])] at h2
      obtain ⟨y, hy, rfl⟩ := List.mem_map.1 h2
      rcases List.mem_append.1 hy with hy2 | hy2
      · have hyid : y.id = r1.id := by
          rw [← (updateByKey_map_id_key y k v t).2.1]; exact heq
        have hEq : y = r1 := eq_of_mem_id hpair hy2 h1 hyid
        subst hEq
        exact (updateByKey_map_id_key y k v t).2.2.2
      · rw [List.mem_singleton] at hy2
        subst hy2
        exfalso
        have h1b := hbound r1 h1
        have hfid : (if (⟨s.nextId, k, v, none, t, t⟩ : Record).key == k
            then { (⟨s.nextId, k, v, none, t, t⟩ : Record) with
                     value := v, updateTime := t }
            else (⟨s.nextId, k, v, none, t, t⟩ : Record)).id = s.nextId :=
          (updateByKey_map_id_key ⟨s.nextId, k, v, none, t, t⟩ k v t).2.1
        rw [hfid] at heq
        omega
  · intro s2 hok r2 h2 r1 h1 heq
    by_cases hlen : (s.recs.filter (fun y => y.key == k)).length < 1
    · exfalso
      simp only [tagsWrite] at hok
      rw [if_pos hlen] at hok
      cases hok
    · simp only [tagsWrite] at hok
      rw [if_neg hlen] at hok
      have hs2 : s2 = { s with recs := s.recs.map (fun y =>
          if y.key == k then { y with labels := some x, updateTime := t } else y) } := by
        injection hok with h
        exact h.symm
      subst hs2
      exact map_preserves_createTime s.recs _
        (fun y => (tagsLabels_map_key y k x t).2.1)
        (fun y => (tagsLabels_map_key y k x t).2.2) hpair r2 h2 r1 h1 heq

/-- C9 witness: a store holding one record, value overwrite at time 5 and a
tag write at time 5. -/
theorem c9_createTime_never_changes_witness :
    StoreInv (Store.mk [Record.mk 1 ['k'] ['v'] none 0 0] 2 none) ∧
    ((∀ r2 ∈ (set ['k'] ['w'] 5 (Store.mk [Record.mk 1 ['k'] ['v'] none 0 0] 2 none)).recs,
        ∀ r1 ∈ (Store.mk [Record.mk 1 ['k'] ['v'] none 0 0] 2 none).recs,
          r2.id = r1.id → r2.createTime = r1.createTime) ∧
     (∀ s2, tagsWrite ['k'] ['x'] 5 (Store.mk [Record.mk 1 ['k'] ['v'] none 0 0] 2 none)
          = Except.ok s2 →
        ∀ r2 ∈ s2.recs,
          ∀ r1 ∈ (Store.mk [Record.mk 1 ['k'] ['v'] none 0 0] 2 none).recs,
            r2.id = r1.id → r2.createTime = r1.createTime)) :=
  ⟨by decide,
   c9_createTime_never_changes (Store.mk [Record.mk 1 ['k'] ['v'] none 0 0] 2 none)
     ['k'] ['w'] ['x'] 5 (by decide)⟩

end KVL

namespace KVL

lemma likeMatch_percent (s : Str) : likeMatch ['%'] s = true := by
  simp only [likeMatch]
  rw [if_pos trivial]
  refine List.any_eq_true.2 ⟨[], (List.mem_tails [] s).2 ⟨s, by simp⟩, rfl⟩

lemma likeMatch_append_self (u : Str) {ps t : Str} (h : likeMatch ps t = true) :
    likeMatch (u ++ ps) (u ++ t) = true := by
  induction u with
  | nil => simpa using h
  | cons c u ih =>
    by_cases hc : c = '%'
    · subst hc
      show likeMatch ('%' :: (u ++ ps)) ('%' :: (u ++ t)) = true
      simp only [likeMatch]
      rw [if_pos trivial]
      refine List.any_eq_true.2 ⟨u ++ t, (List.mem_tails _ _).2 ⟨['%'], rfl⟩, ih⟩
    · by_cases hu : c = '_'
      · subst hu
        have h1 : ('_' : Char) ≠ '%' := by decide
        show likeMatch ('_' :: (u ++ ps)) ('_' :: (u ++ t)) = true
        simp [likeMatch, h1, ih]
      · show likeMatch (c :: (u ++ ps)) (c :: (u ++ t)) = true
        simp [likeMatch, hc, hu, ih]

lemma likeMatch_nameKey (name tok : Str) :
    likeMatch (name ++ [':', '%']) (nameKey name tok) = true := by
  refine likeMatch_append_self name ?_
  have h1 : (':' : Char) ≠ '%' := by decide
  have h2 : (':' : Char) ≠ '_' := by decide
  show likeMatch [':', '%'] (':' :: tok) = true
  simp [likeMatch, h1, h2, likeMatch_percent tok]

lemma matchesName_key (name : Str) (r : Record) (tok : Str)
    (hk : r.key = nameKey name tok) : matchesName name r = true := by
  rw [matchesName, hk]
  exact likeMatch_nameKey name tok

/-- Choice of the row with the smaller id, the head row winning ties. -/
def pickMin (r : Record) : Option Record → Option Record
  | none => some r
  | some m => if r.id ≤ m.id then some r else some m

/-- Choice of the row with the larger id, the head row winning ties. -/
def pickMax (r : Record) : Option Record → Option Record
  | none => some r
  | some m => if m.id ≤ r.id then some r else some m

/-- The row of least id among a list of rows: characterises selectMinId
through the filtered row set. -/
def minRec : List Record → Option Record
  | [] => none
  | r :: rs => pickMin r (minRec rs)

/-- The row of greatest id among a list of rows. -/
def maxRec : List Record → Option Record
  | [] => none
  | r :: rs => pickMax r (maxRec rs)

lemma selectMinId_eq_minRec (p : Record → Bool) (l : List Record) :
    selectMinId p l = minRec (l.filter p) := by
  induction l with
  | nil => rfl
  | cons a l ih =>
    by_cases h : p a = true
    · simp [selectMinId, minRec, pickMin, List.filter_cons, h, ih]
    · simp [selectMinId, List.filter_cons, h, ih]

lemma selectMaxId_eq_maxRec (p : Record → Bool) (l : List Record) :
    selectMaxId p l = maxRec (l.filter p) := by
  induction l with
  | nil => rfl
  | cons a l ih =>
    by_cases h : p a = true
    · simp [selectMaxId, maxRec, pickMax, List.filter_cons, h, ih]
    · simp [selectMaxId, List.filter_cons, h, ih]

lemma minRec_mem : ∀ {l : List Record} {m : Record}, minRec l = some m → m ∈ l := by
  intro l
  induction l with
  | nil => intro m h; cases h
  | cons a l ih =>
    intro m h
    simp only [minRec] at h
    cases hrest : minRec l with
    | none =>
      rw [hrest] at h
      simp only [pickMin] at h
      cases h
      exact List.mem_cons_self a l
    | some b =>
      rw [hrest] at h
      simp only [pickMin] at h
      by_cases hid : a.id ≤ b.id
      · rw [if_pos hid] at h
        cases h
        exact List.mem_cons_self a l
      · rw [if_neg hid] at h
        cases h
        exact List.mem_cons_of_mem a (ih hrest)

lemma maxRec_mem : ∀ {l : List Record} {m : Record}, maxRec l = some m → m ∈ l := by
  intro l
  induction l with
  | nil => intro m h; cases h
  | cons a l ih =>
    intro m h
    simp only [maxRec] at h
    cases hrest : maxRec l with
    | none =>
      rw [hrest] at h
      simp only [pickMax] at h
      cases h
      exact List.mem_cons_self a l
    | some b =>
      rw [hrest] at h
      simp only [pickMax] at h
      by_cases hid : b.id ≤ a.id
      · rw [if_pos hid] at h
        cases h
        exact List.mem_cons_self a l
      · rw [if_neg hid] at h
        cases h
        exact List.mem_cons_of_mem a (ih hrest)

lemma minRec_cons_of_min (r : Record) (l : List Record)
    (h : ∀ x ∈ l, r.id ≤ x.id) : minRec (r :: l) = some r := by
  simp only [minRec]
  cases hrest : minRec l with
  | none => simp [pickMin]
  | some m =>
    simp only [pickMin]
    rw [if_pos (h m (minRec_mem hrest))]

lemma maxRec_concat (l : List Record) (r : Record)
    (h : ∀ x ∈ l, x.id < r.id) : maxRec (l ++ [r]) = some r := by
  induction l with
  | nil => rfl
  | cons a l ih =>
    have ih2 := ih (fun x hx => h x (List.mem_cons_of_mem a hx))
    have ha := h a (List.mem_cons_self a l)
    rw [List.cons_append]
    simp only [maxRec]
    rw [ih2]
    simp only [pickMax]
    rw [if_neg (by omega)]

lemma filter_ne_middle (old new1 : List Record) (r : Record)
    (h : ∀ x ∈ old ++ new1, x.id ≠ r.id) :
    (old ++ r :: new1).filter (fun x => x.id != r.id) = old ++ new1 := by
  rw [List.filter_append, List.filter_cons]
  rw [if_neg (by simp)]
  rw [List.filter_eq_self.2 (fun x hx => by
      simp [h x (List.mem_append_left new1 hx)]),
    List.filter_eq_self.2 (fun x hx => by
      simp [h x (List.mem_append_right old hx)])]

lemma shift_at (name : Str) (s : Store) (old new1 : List Record) (r : Record)
    (hrecs : s.recs = old ++ r :: new1)
    (hpair : s.recs.Pairwise (fun a b => a.id < b.id))
    (hpos : 0 < r.id)
    (hold : ∀ x ∈ old, matchesName name x = false)
    (hr : matchesName name r = true) :
    shift name s = (some r.value, { s with recs := old ++ new1 }) := by
  rw [hrecs] at hpair
  have hpair2 := List.pairwise_append.1 hpair
  have hcons := List.pairwise_cons.1 hpair2.2.1
  have hsel : selectMinId (matchesName name) s.recs = some r := by
    rw [selectMinId_eq_minRec, hrecs, List.filter_append]
    have h1 : old.filter (matchesName name) = [] := by
      rw [List.filter_eq_nil_iff]
      intro a ha
      simp [hold a ha]
    rw [h1, List.nil_append, List.filter_cons, if_pos hr]
    refine minRec_cons_of_min r _ ?_
    intro x hx
    have hx2 : x ∈ new1 := List.mem_of_mem_filter hx
    have := hcons.1 x hx2
    omega
  have hdel : deleteById r.id s = { s with recs := old ++ new1 } := by
    rw [deleteById]
    have hrw : s.recs.filter (fun x => x.id != r.id) = old ++ new1 := by
      rw [hrecs]
      refine filter_ne_middle old new1 r ?_
      intro x hx
      rcases List.mem_append.1 hx with hx2 | hx2
      · have := hpair2.2.2 x hx2 r (List.mem_cons_self r new1)
        omega
      · have := hcons.1 x hx2
        omega
    rw [hrw]
  rw [shift, hsel]
  simp only []
  rw [if_pos (by omega : r.id ≠ 0), hdel]

lemma pop_at (name : Str) (s : Store) (old front : List Record) (r : Record)
    (hrecs : s.recs = old ++ (front ++ [r]))
    (hpair : s.recs.Pairwise (fun a b => a.id < b.id))
    (hpos : 0 < r.id)
    (hold : ∀ x ∈ old, matchesName name x = false)
    (hr : matchesName name r = true) :
    pop name s = (some r.value, { s with recs := old ++ front }) := by
  rw [hrecs] at hpair
  have hpair2 := List.pairwise_append.1 hpair
  have hfr := List.pairwise_append.1 hpair2.2.1
  have hsel : selectMaxId (matchesName name) s.recs = some r := by
    rw [selectMaxId_eq_maxRec, hrecs, List.filter_append]
    have h1 : old.filter (matchesName name) = [] := by
      rw [List.filter_eq_nil_iff]
      intro a ha
      simp [hold a ha]
    rw [h1, List.nil_append, List.filter_append, List.filter_cons, if_pos hr]
    simp only [List.filter_nil]
    refine maxRec_concat _ r ?_
    intro x hx
    have hx2 : x ∈ front := List.mem_of_mem_filter hx
    exact hfr.2.2 x hx2 r (List.mem_cons_self r [])
  have hdel : deleteById r.id s = { s with recs := old ++ front } := by
    rw [deleteById]
    have hrw : s.recs.filter (fun x => x.id != r.id) = old ++ front := by
      rw [hrecs, ← List.append_assoc]
      have h3 := filter_ne_middle (old ++ front) [] r ?_
      · simpa using h3
      · intro x hx
        simp only [List.append_nil] at hx
        rcases List.mem_append.1 hx with hx2 | hx2
        · have := hpair2.2.2 x hx2 r
            (List.mem_append_right front (List.mem_cons_self r []))
          omega
        · have := hfr.2.2 x hx2 r (List.mem_cons_self r [])
          omega
    rw [hrw]
  rw [pop, hsel]
  simp only []
  rw [if_pos (by omega : r.id ≠ 0), hdel]

lemma shift_empty (name : Str) (s : Store)
    (h : ∀ r ∈ s.recs, matchesName name r = false) : shift name s = (none, s) := by
  have hsel : selectMinId (matchesName name) s.recs = none := by
    rw [selectMinId_eq_minRec]
    have hnil : s.recs.filter (matchesName name) = [] := by
      rw [List.filter_eq_nil_iff]
      intro a ha
      simp [h a ha]
    rw [hnil]
    rfl
  rw [shift, hsel]

lemma pop_empty (name : Str) (s : Store)
    (h : ∀ r ∈ s.recs, matchesName name r = false) : pop name s = (none, s) := by
  have hsel : selectMaxId (matchesName name) s.recs = none := by
    rw [selectMaxId_eq_maxRec]
    have hnil : s.recs.filter (matchesName name) = [] := by
      rw [List.filter_eq_nil_iff]
      intro a ha
      simp [h a ha]
    rw [hnil]
    rfl
  rw [pop, hsel]

end KVL

namespace KVL

lemma push_snd (name tok v : Str) (t : Int) (s : Store) :
    (push name tok v t s).2 = set (nameKey name tok) v t s := rfl

lemma push_fresh (name tok v : Str) (t : Int) (s : Store)
    (hfresh : ∀ r ∈ s.recs, r.key ≠ nameKey name tok) :
    (push name tok v t s).2 =
      { recs := s.recs ++ [⟨s.nextId, nameKey name tok, v, none, t, t⟩],
        nextId := s.nextId + 1, expireTimeMs := s.expireTimeMs } := by
  have hany : s.recs.any (fun r => r.key == nameKey name tok) = false := by
    rw [List.any_eq_false]
    intro r hr
    simp [beq_eq_false_iff_ne.2 (hfresh r hr)]
  have h1 : insertIfAbsent (nameKey name tok) v t s =
      { recs := s.recs ++ [⟨s.nextId, nameKey name tok, v, none, t, t⟩],
        nextId := s.nextId + 1, expireTimeMs := s.expireTimeMs } := by
    rw [insertIfAbsent, if_neg (by simp [hany])]
  rw [push_snd, set, h1, updateByKey]
  congr 1
  rw [List.map_append]
  have h3 : ∀ r ∈ s.recs, (if r.key == nameKey name tok
      then { r with value := v, updateTime := t } else r) = r := by
    intro r hr
    rw [if_neg (by simp [beq_eq_false_iff_ne.2 (hfresh r hr)])]
  have h2 : s.recs.map (fun r =>
      if r.key == nameKey name tok then { r with value := v, updateTime := t } else r)
      = s.recs :=
    (List.map_congr_left h3).trans (List.map_id s.recs)
  rw [h2]
  have h4 : ((⟨s.nextId, nameKey name tok, v, none, t, t⟩ : Record).key
      == nameKey name tok) = true := by simp
  simp [h4]

lemma mkRecs_length (name : Str) :
    ∀ (items : List PushItem) (i : Nat), (mkRecs name items i).length = items.length := by
  intro items
  induction items with
  | nil => intro i; rfl
  | cons it rest ih => intro i; simp [mkRecs, ih]

lemma mkRecs_match (name : Str) :
    ∀ (items : List PushItem) (i : Nat),
      ∀ r ∈ mkRecs name items i, matchesName name r = true := by
  intro items
  induction items with
  | nil => intro i r hr; cases hr
  | cons it rest ih =>
    intro i r hr
    rcases List.mem_cons.1 hr with h | h
    · subst h
      exact matchesName_key name _ it.tok rfl
    · exact ih (i + 1) r h

lemma mkRecs_values (name : Str) :
    ∀ (items : List PushItem) (i : Nat),
      (mkRecs name items i).map (fun r => some r.value) =
        items.map (fun it => some it.val) := by
  intro items
  induction items with
  | nil => intro i; rfl
  | cons it rest ih => intro i; simp [mkRecs, ih]

lemma pushAll_spec (name : Str) :
    ∀ (items : List PushItem) (s : Store),
      StoreInv s →
      (∀ it ∈ items, ∀ r ∈ s.recs, r.key ≠ nameKey name it.tok) →
      (items.map (fun it => it.tok)).Nodup →
      (pushAll name items s).recs = s.recs ++ mkRecs name items s.nextId ∧
      (pushAll name items s).nextId = s.nextId + items.length ∧
      StoreInv (pushAll name items s) := by
  intro items
  induction items with
  | nil =>
    intro s hinv _ _
    refine ⟨by simp [pushAll, mkRecs], by simp [pushAll], ?_⟩
    simpa [pushAll] using hinv
  | cons it rest ih =>
    intro s hinv hfresh hnd
    have hp := push_fresh name it.tok it.val it.time s
      (hfresh it (List.mem_cons_self it rest))
    have hinvS1 : StoreInv (push name it.tok it.val it.time s).2 := by
      rw [push_snd]
      exact set_inv s (nameKey name it.tok) it.val it.time hinv
    have hfresh1 : ∀ it2 ∈ rest,
        ∀ r ∈ (push name it.tok it.val it.time s).2.recs,
          r.key ≠ nameKey name it2.tok := by
      intro it2 hit2 r hr
      rw [hp] at hr
      simp only [] at hr
      rcases List.mem_append.1 hr with h | h
      · exact hfresh it2 (List.mem_cons_of_mem it hit2) r h
      · rw [List.mem_singleton] at h
        subst h
        intro he
        have h2 : ':' :: it.tok = ':' :: it2.tok := List.append_cancel_left he
        have h3 : it.tok = it2.tok := by injection h2
        have hndc : it.tok ∉ rest.map (fun it3 => it3.tok) ∧
            (rest.map (fun it3 => it3.tok)).Nodup := List.nodup_cons.1 hnd
        exact hndc.1 (by rw [h3]; exact List.mem_map.2 ⟨it2, hit2, rfl⟩)
    have hnd1 : (rest.map (fun it2 => it2.tok)).Nodup :=
      (List.nodup_cons.1 hnd).2
    obtain ⟨h1, h2, h3⟩ := ih _ hinvS1 hfresh1 hnd1
    refine ⟨?_, ?_, ?_⟩
    · simp only [pushAll]
      rw [h1, hp]
      simp [mkRecs, List.append_assoc]
    · simp only [pushAll]
      rw [h2, hp]
      simp only [List.length_cons]
      omega
    · simp only [pushAll]
      exact h3

lemma shiftSeq_drain (name : Str) (old : List Record) :
    ∀ (new1 : List Record) (s : Store),
      s.recs = old ++ new1 →
      s.recs.Pairwise (fun a b => a.id < b.id) →
      (∀ x ∈ s.recs, 0 < x.id) →
      (∀ x ∈ old, matchesName name x = false) →
      (∀ x ∈ new1, matchesName name x = true) →
      shiftSeq name new1.length s =
        (new1.map (fun r => some r.value), { s with recs := old }) := by
  intro new1
  induction new1 with
  | nil =>
    intro s hrecs _ _ _ _
    have hrecs2 : s.recs = old := by simpa using hrecs
    have hs : ({ s with recs := old } : Store) = s := by
      rw [← hrecs2]
    rw [hs]
    rfl
  | cons r rest ih =>
    intro s hrecs hpair hpos hold hnew
    have hstep := shift_at name s old rest r hrecs hpair
      (hpos r (by rw [hrecs]; exact List.mem_append_right old (List.mem_cons_self r rest)))
      hold (hnew r (List.mem_cons_self r rest))
    show shiftSeq name (rest.length + 1) s = _
    simp only [shiftSeq]
    rw [hstep]
    have hpair1 : (({ s with recs := old ++ rest } : Store)).recs.Pairwise
        (fun a b => a.id < b.id) := by
      simp only []
      rw [hrecs] at hpair
      exact hpair.sublist ((List.sublist_cons_self r rest).append_left old)
    have hpos1 : ∀ x ∈ (({ s with recs := old ++ rest } : Store)).recs, 0 < x.id := by
      intro x hx
      simp only [] at hx
      apply hpos
      rw [hrecs]
      rcases List.mem_append.1 hx with h | h
      · exact List.mem_append_left _ h
      · exact List.mem_append_right _ (List.mem_cons_of_mem r h)
    have ihS := ih { s with recs := old ++ rest } rfl hpair1 hpos1 hold
      (fun x hx => hnew x (List.mem_cons_of_mem r hx))
    rw [ihS]
    rfl

lemma popSeq_drain (name : Str) (old : List Record) :
    ∀ (new1 : List Record) (s : Store),
      s.recs = old ++ new1 →
      s.recs.Pairwise (fun a b => a.id < b.id) →
      (∀ x ∈ s.recs, 0 < x.id) →
      (∀ x ∈ old, matchesName name x = false) →
      (∀ x ∈ new1, matchesName name x = true) →
      popSeq name new1.length s =
        (new1.reverse.map (fun r => some r.value), { s with recs := old }) := by
  intro new1
  induction new1 using List.reverseRecOn with
  | nil =>
    intro s hrecs _ _ _ _
    have hrecs2 : s.recs = old := by simpa using hrecs
    have hs : ({ s with recs := old } : Store) = s := by
      rw [← hrecs2]
    rw [hs]
    rfl
  | append_singleton front r ih =>
    intro s hrecs hpair hpos hold hnew
    have hstep := pop_at name s old front r hrecs hpair
      (hpos r (by
        rw [hrecs]
        exact List.mem_append_right old
          (List.mem_append_right front (List.mem_cons_self r []))))
      hold (hnew r (List.mem_append_right front (List.mem_cons_self r [])))
    have hlen : (front ++ [r]).length = front.length + 1 := by simp
    rw [hlen]
    simp only [popSeq]
    rw [hstep]
    have hpair1 : (({ s with recs := old ++ front } : Store)).recs.Pairwise
        (fun a b => a.id < b.id) := by
      simp only []
      rw [hrecs] at hpair
      refine hpair.sublist ?_
      refine List.Sublist.append_left ?_ old
      exact List.sublist_append_left front [r]
    have hpos1 : ∀ x ∈ (({ s with recs := old ++ front } : Store)).recs, 0 < x.id := by
      intro x hx
      simp only [] at hx
      apply hpos
      rw [hrecs]
      rcases List.mem_append.1 hx with h | h
      · exact List.mem_append_left _ h
      · exact List.mem_append_right _ (List.mem_append_left [r] h)
    have ihS := ih { s with recs := old ++ front } rfl hpair1 hpos1 hold
      (fun x hx => hnew x (List.mem_append_left [r] hx))
    rw [ihS]
    simp

end KVL

namespace KVL

/-- C2: pushing values v1..vn to the same list name in order (with the
distinct random key tokens the source draws from crypto.randomUUID) and then
calling shift n times returns v1, v2, ..., vn in that order; one further
shift on the now-empty list returns undefined and deletes nothing, leaving
the store exactly as it is. -/
theorem c2_fifo (s : Store) (name : Str) (items : List PushItem)
    (hinv : StoreInv s)
    (hnomatch : ∀ r ∈ s.recs, matchesName name r = false)
    (hnd : (items.map (fun it => it.tok)).Nodup) :
    (shiftSeq name items.length (pushAll name items s)).1 =
      items.map (fun it => some it.val) ∧
    shift name (shiftSeq name items.length (pushAll name items s)).2 =
      (none, (shiftSeq name items.length (pushAll name items s)).2) := by
  have hfresh : ∀ it ∈ items, ∀ r ∈ s.recs, r.key ≠ nameKey name it.tok := by
    intro it _ r hr he
    have hm : matchesName name r = true := matchesName_key name r it.tok he
    rw [hnomatch r hr] at hm
    cases hm
  obtain ⟨h1, h2, h3⟩ := pushAll_spec name items s hinv hfresh hnd
  have hlen := mkRecs_length name items s.nextId
  have hdrain := shiftSeq_drain name s.recs (mkRecs name items s.nextId)
    (pushAll name items s) h1 h3.1 (fun x hx => (h3.2.1 x hx).1) hnomatch
    (mkRecs_match name items s.nextId)
  rw [hlen] at hdrain
  constructor
  · rw [hdrain]
    exact mkRecs_values name items s.nextId
  · rw [hdrain]
    refine shift_empty name _ ?_
    intro r hr
    exact hnomatch r hr

/-- C2 witness: two values pushed to list q on a fresh store. -/
theorem c2_fifo_witness :
    StoreInv (mkKVL none) ∧
    (∀ r ∈ (mkKVL none).recs, matchesName ['q'] r = false) ∧
    (([(⟨['t', '1'], ['a'], 0⟩ : PushItem), ⟨['t', '2'], ['b'], 0⟩].map
        (fun it => it.tok)).Nodup) ∧
    ((shiftSeq ['q'] [(⟨['t', '1'], ['a'], 0⟩ : PushItem), ⟨['t', '2'], ['b'], 0⟩].length
        (pushAll ['q'] [⟨['t', '1'], ['a'], 0⟩, ⟨['t', '2'], ['b'], 0⟩] (mkKVL none))).1 =
      [(⟨['t', '1'], ['a'], 0⟩ : PushItem), ⟨['t', '2'], ['b'], 0⟩].map
        (fun it => some it.val) ∧
     shift ['q'] (shiftSeq ['q']
        [(⟨['t', '1'], ['a'], 0⟩ : PushItem), ⟨['t', '2'], ['b'], 0⟩].length
        (pushAll ['q'] [⟨['t', '1'], ['a'], 0⟩, ⟨['t', '2'], ['b'], 0⟩] (mkKVL none))).2 =
      (none, (shiftSeq ['q']
        [(⟨['t', '1'], ['a'], 0⟩ : PushItem), ⟨['t', '2'], ['b'], 0⟩].length
        (pushAll ['q'] [⟨['t', '1'], ['a'], 0⟩, ⟨['t', '2'], ['b'], 0⟩] (mkKVL none))).2)) :=
  ⟨by decide, by decide, by decide,
   c2_fifo (mkKVL none) ['q'] [⟨['t', '1'], ['a'], 0⟩, ⟨['t', '2'], ['b'], 0⟩]
     (by decide) (by decide) (by decide)⟩

/-- C3: pushing values v1..vn to the same list name in order (with distinct
random key tokens) and then calling pop n times returns vn, vn-1, ..., v1 in
that order; pop on a list with no members returns undefined and leaves the
store unchanged. -/
theorem c3_lifo (s : Store) (name : Str) (items : List PushItem)
    (hinv : StoreInv s)
    (hnomatch : ∀ r ∈ s.recs, matchesName name r = false)
    (hnd : (items.map (fun it => it.tok)).Nodup) :
    (popSeq name items.length (pushAll name items s)).1 =
      items.reverse.map (fun it => some it.val) ∧
    pop name (popSeq name items.length (pushAll name items s)).2 =
      (none, (popSeq name items.length (pushAll name items s)).2) ∧
    (∀ s2 : Store, (∀ r ∈ s2.recs, matchesName name r = false) →
      pop name s2 = (none, s2)) := by
  have hfresh : ∀ it ∈ items, ∀ r ∈ s.recs, r.key ≠ nameKey name it.tok := by
    intro it _ r hr he
    have hm : matchesName name r = true := matchesName_key name r it.tok he
    rw [hnomatch r hr] at hm
    cases hm
  obtain ⟨h1, h2, h3⟩ := pushAll_spec name items s hinv hfresh hnd
  have hlen := mkRecs_length name items s.nextId
  have hdrain := popSeq_drain name s.recs (mkRecs name items s.nextId)
    (pushAll name items s) h1 h3.1 (fun x hx => (h3.2.1 x hx).1) hnomatch
    (mkRecs_match name items s.nextId)
  rw [hlen] at hdrain
  refine ⟨?_, ?_, fun s2 h2m => pop_empty name s2 h2m⟩
  · rw [hdrain]
    have hv := mkRecs_values name items s.nextId
    calc (mkRecs name items s.nextId).reverse.map (fun r => some r.value)
        = ((mkRecs name items s.nextId).map (fun r => some r.value)).reverse := by
          rw [List.map_reverse]
      _ = (items.map (fun it => some it.val)).reverse := by rw [hv]
      _ = items.reverse.map (fun it => some it.val) := by rw [List.map_reverse]
  · rw [hdrain]
    refine pop_empty name _ ?_
    intro r hr
    exact hnomatch r hr

/-- C3 witness: two values pushed to list q on a fresh store. -/
theorem c3_lifo_witness :
    StoreInv (mkKVL none) ∧
    (∀ r ∈ (mkKVL none).recs, matchesName ['q'] r = false) ∧
    (([(⟨['t', '1'], ['a'], 0⟩ : PushItem), ⟨['t', '2'], ['b'], 0⟩].map
        (fun it => it.tok)).Nodup) ∧
    ((popSeq ['q'] [(⟨['t', '1'], ['a'], 0⟩ : PushItem), ⟨['t', '2'], ['b'], 0⟩].length
        (pushAll ['q'] [⟨['t', '1'], ['a'], 0⟩, ⟨['t', '2'], ['b'], 0⟩] (mkKVL none))).1 =
      [(⟨['t', '1'], ['a'], 0⟩ : PushItem), ⟨['t', '2'], ['b'], 0⟩].reverse.map
        (fun it => some it.val) ∧
     pop ['q'] (popSeq ['q']
        [(⟨['t', '1'], ['a'], 0⟩ : PushItem), ⟨['t', '2'], ['b'], 0⟩].length
        (pushAll ['q'] [⟨['t', '1'], ['a'], 0⟩, ⟨['t', '2'], ['b'], 0⟩] (mkKVL none))).2 =
      (none, (popSeq ['q']
        [(⟨['t', '1'], ['a'], 0⟩ : PushItem), ⟨['t', '2'], ['b'], 0⟩].length
        (pushAll ['q'] [⟨['t', '1'], ['a'], 0⟩, ⟨['t', '2'], ['b'], 0⟩] (mkKVL none))).2) ∧
     (∀ s2 : Store, (∀ r ∈ s2.recs, matchesName ['q'] r = false) →
       pop ['q'] s2 = (none, s2))) :=
  ⟨by decide, by decide, by decide,
   c3_lifo (mkKVL none) ['q'] [⟨['t', '1'], ['a'], 0⟩, ⟨['t', '2'], ['b'], 0⟩]
     (by decide) (by decide) (by decide)⟩

end KVL

namespace KVL

lemma toNat_ofNat_valid (n : Nat) (h : n.isValidChar) : (Char.ofNat n).toNat = n := by
  simp only [Char.ofNat]
  rw [dif_pos h]
  simp [Char.ofNatAux, Char.toNat, UInt32.toNat]

lemma toLower_eq_colon_iff (c : Char) : c.toLower = ':' ↔ c = ':' := by
  constructor
  · intro h
    unfold Char.toLower at h
    by_cases hr : c.toNat ≥ 65 ∧ c.toNat ≤ 90
    · rw [if_pos hr] at h
      exfalso
      have hv : (c.toNat + 32).isValidChar := Or.inl (by omega)
      have h2 := congrArg Char.toNat h
      rw [toNat_ofNat_valid _ hv] at h2
      have h3 : (':' : Char).toNat = 58 := by decide
      omega
    · rwa [if_neg hr] at h
  · intro h
    subst h
    decide

lemma likeMatch_distinct_names :
    ∀ (b a tok : Str),
      (∀ c ∈ a, c ≠ ':') →
      (∀ c ∈ b, c ≠ ':' ∧ c ≠ '%' ∧ c ≠ '_') →
      a.map Char.toLower ≠ b.map Char.toLower →
      likeMatch (b ++ [':', '%']) (nameKey a tok) = false := by
  intro b
  induction b with
  | nil =>
    intro a tok ha _ hne
    cases a with
    | nil => exact absurd rfl hne
    | cons c a2 =>
      have hcc : c ≠ ':' := ha c (List.mem_cons_self c a2)
      show likeMatch [':', '%'] (nameKey (c :: a2) tok) = false
      simp only [likeMatch, nameKey, List.cons_append]
      rw [if_neg (by decide), if_neg (by decide)]
      have hb2 : (Char.toLower ':' == Char.toLower c) = false := by
        rw [beq_eq_false_iff_ne]
        intro he
        have h2 : c.toLower = ':' := by
          rw [← he]
          decide
        exact hcc ((toLower_eq_colon_iff c).1 h2)
      rw [hb2, Bool.false_and]
  | cons d b2 ih =>
    intro a tok ha hb hne
    have hd := hb d (List.mem_cons_self d b2)
    cases a with
    | nil =>
      show likeMatch (d :: (b2 ++ [':', '%'])) (nameKey [] tok) = false
      simp only [likeMatch, nameKey, List.nil_append]
      rw [if_neg hd.2.1, if_neg hd.2.2]
      have hb2 : (Char.toLower d == Char.toLower ':') = false := by
        rw [beq_eq_false_iff_ne]
        intro he
        have h2 : d.toLower = ':' := by
          rw [he]
          decide
        exact hd.1 ((toLower_eq_colon_iff d).1 h2)
      rw [hb2, Bool.false_and]
    | cons c a2 =>
      show likeMatch (d :: (b2 ++ [':', '%'])) (nameKey (c :: a2) tok) = false
      simp only [likeMatch, nameKey, List.cons_append]
      rw [if_neg hd.2.1, if_neg hd.2.2]
      by_cases hdc : d.toLower = c.toLower
      · have hne2 : a2.map Char.toLower ≠ b2.map Char.toLower := by
          intro he
          apply hne
          simp only [List.map_cons, hdc, he]
        have ih2 := ih a2 tok (fun x hx => ha x (List.mem_cons_of_mem c hx))
          (fun x hx => hb x (List.mem_cons_of_mem d hx)) hne2
        simp only [nameKey] at ih2
        rw [hdc, ih2, Bool.and_false]
      · rw [beq_eq_false_iff_ne.2 hdc, Bool.false_and]

lemma matchesName_of_key_false (b : Str) (r : Record) (a tok : Str)
    (hk : r.key = nameKey a tok)
    (hnm : likeMatch (b ++ [':', '%']) (nameKey a tok) = false) :
    matchesName b r = false := by
  rw [matchesName, hk]
  exact hnm

lemma filter_map_eq (l : List Record) (f : Record → Record) (p : Record → Bool)
    (hp : ∀ r, p (f r) = p r) (hid : ∀ r, p r = true → f r = r) :
    (l.map f).filter p = l.filter p := by
  induction l with
  | nil => rfl
  | cons x l ih =>
    rw [List.map_cons, List.filter_cons, List.filter_cons, hp x]
    by_cases hx : p x = true
    · rw [if_pos hx, if_pos hx, hid x hx, ih]
    · rw [if_neg hx, if_neg hx, ih]

lemma matchesName_map_update (b : Str) (k v : Str) (t : Int) (r : Record) :
    matchesName b (if r.key == k then { r with value := v, updateTime := t } else r) =
      matchesName b r := by
  by_cases h : (r.key == k) = true
  · rw [if_pos h]
    rfl
  · rw [if_neg h]

lemma filter_push (b name tok v : Str) (t : Int) (s : Store)
    (hnm : likeMatch (b ++ [':', '%']) (nameKey name tok) = false) :
    (push name tok v t s).2.recs.filter (matchesName b) =
      s.recs.filter (matchesName b) := by
  have hid : ∀ r : Record, matchesName b r = true →
      (if r.key == nameKey name tok then { r with value := v, updateTime := t } else r)
        = r := by
    intro r hr
    by_cases h : (r.key == nameKey name tok) = true
    · exfalso
      have hk : r.key = nameKey name tok := beq_iff_eq.1 h
      rw [matchesName_of_key_false b r name tok hk hnm] at hr
      cases hr
    · rw [if_neg h]
  rw [push_snd, set_recs]
  by_cases h : s.recs.any (fun r => r.key == nameKey name tok) = true
  · rw [if_pos h]
    exact filter_map_eq s.recs _ (matchesName b)
      (fun r => matchesName_map_update b (nameKey name tok) v t r) hid
  · rw [Bool.not_eq_true] at h
    rw [if_neg (by simp [h]), List.map_append, List.filter_append]
    rw [filter_map_eq s.recs _ (matchesName b)
      (fun r => matchesName_map_update b (nameKey name tok) v t r) hid]
    have hmn : matchesName b (⟨s.nextId, nameKey name tok, v, none, t, t⟩ : Record)
        = false := matchesName_of_key_false b _ name tok rfl hnm
    have hnew : (([(⟨s.nextId, nameKey name tok, v, none, t, t⟩ : Record)].map
        (fun r => if r.key == nameKey name tok
          then { r with value := v, updateTime := t } else r)).filter
        (matchesName b)) = [] := by
      simp [hmn]
    rw [hnew, List.append_nil]

/-- C8 counterexample: the list names a and a:b are distinct, yet a value
pushed to list a:b shows up in all(a): the key a:b:t matches the SQL LIKE
pattern of the shorter name, because membership is a LIKE match, not an
exact prefix test on distinct names. -/
theorem c8_counterexample :
    (['a'] : Str) ≠ ['a', ':', 'b'] ∧
    (all ['a'] (push ['a', ':', 'b'] ['t'] ['v'] 0 (mkKVL none)).2).map
      (fun i => i.value) = [['v']] := by
  decide

/-- C8 (amended): for list names a and b that contain no colon and no LIKE
wildcard and that differ even after ASCII lowercasing, a record pushed to a
never matches list b: its key fails the LIKE filter of b, all(b) is
unchanged by the push, and the values pop(b) and shift(b) return are
unchanged by the push. -/
theorem c8_prefix_isolation (s : Store) (a b tok v : Str) (t : Int)
    (ha : ∀ c ∈ a, c ≠ ':')
    (hb : ∀ c ∈ b, c ≠ ':' ∧ c ≠ '%' ∧ c ≠ '_')
    (hne : a.map Char.toLower ≠ b.map Char.toLower) :
    (∀ r : Record, r.key = nameKey a tok → matchesName b r = false) ∧
    all b (push a tok v t s).2 = all b s ∧
    (pop b (push a tok v t s).2).1 = (pop b s).1 ∧
    (shift b (push a tok v t s).2).1 = (shift b s).1 := by
  have hnm := likeMatch_distinct_names b a tok ha hb hne
  have hfil := filter_push b a tok v t s hnm
  refine ⟨fun r hk => matchesName_of_key_false b r a tok hk hnm, ?_, ?_, ?_⟩
  · rw [all, all, hfil]
  · have hsel : selectMaxId (matchesName b) (push a tok v t s).2.recs =
        selectMaxId (matchesName b) s.recs := by
      rw [selectMaxId_eq_maxRec, selectMaxId_eq_maxRec, hfil]
    cases hX : selectMaxId (matchesName b) s.recs with
    | none => simp only [pop, hsel, hX]
    | some item => simp only [pop, hsel, hX]
  · have hsel : selectMinId (matchesName b) (push a tok v t s).2.recs =
        selectMinId (matchesName b) s.recs := by
      rw [selectMinId_eq_minRec, selectMinId_eq_minRec, hfil]
    cases hX : selectMinId (matchesName b) s.recs with
    | none => simp only [shift, hsel, hX]
    | some item => simp only [shift, hsel, hX]

/-- C8 witness: names a and b, token t, a fresh store. -/
theorem c8_prefix_isolation_witness :
    (∀ c ∈ (['a'] : Str), c ≠ ':') ∧
    (∀ c ∈ (['b'] : Str), c ≠ ':' ∧ c ≠ '%' ∧ c ≠ '_') ∧
    (['a'] : Str).map Char.toLower ≠ (['b'] : Str).map Char.toLower ∧
    ((∀ r : Record, r.key = nameKey ['a'] ['t'] → matchesName ['b'] r = false) ∧
     all ['b'] (push ['a'] ['t'] ['v'] 0 (mkKVL none)).2 = all ['b'] (mkKVL none) ∧
     (pop ['b'] (push ['a'] ['t'] ['v'] 0 (mkKVL none)).2).1 =
       (pop ['b'] (mkKVL none)).1 ∧
     (shift ['b'] (push ['a'] ['t'] ['v'] 0 (mkKVL none)).2).1 =
       (shift ['b'] (mkKVL none)).1) :=
  ⟨by decide, by decide, by decide,
   c8_prefix_isolation (mkKVL none) ['a'] ['b'] ['t'] ['v'] 0
     (by decide) (by decide) (by decide)⟩

end KVL
